import Mathlib

/-!
Shallow embedding of the JSON-schema validator core of `src/json-maker.ts`
(class `JsonMaker`): the recursive structural validator `validateValue`
(lines 418-584), the type classifier `getType` (lines 586-591), the schema
store `loadSchema` (lines 113-130), the entry points `validate`
(lines 164-174) and `validateFile` (lines 179-202), and the template
synthesizer `generateFromSchema` (lines 607-641).

Modelling conventions:
* JavaScript numbers are modelled as `Rat`; `Number.isInteger x` becomes
  `x.den = 1`.  (JSON has no NaN/Infinity, and no claim depends on floats.)
* Objects are insertion-ordered association lists, as produced by
  `JSON.parse` (keys unique, `Object.entries` in insertion order).
* Thrown exceptions are modelled with `Except String`; the string is the
  error message.
* `RegExp` is a platform builtin: pattern-matching semantics are an
  arbitrary parameter `rtest`, while the constructor's syntax check (which
  throws `SyntaxError` on a malformed pattern) is modelled by the
  conservative validator `regexSyntaxOk`: every pattern it accepts is
  valid ECMA-262 (non-unicode) syntax on which the constructor cannot
  throw, and patterns outside that fragment are treated as throwing —
  sound for every no-throw statement proved here.
* The file system and `JSON.parse` are parameters (`fsys`, `parseJson`,
  `parseSchema`); `path.isAbsolute` / `path.join` are modelled POSIX-style
  without normalization (no claim depends on normalization).
-/

/-- A decoded JSON value (the `unknown` candidate values and literals of
`src/json-maker.ts`). -/
inductive JsonValue where
  | null
  | bool (b : Bool)
  | num (q : Rat)
  | str (s : String)
  | arr (elems : List JsonValue)
  | obj (fields : List (String × JsonValue))

/-- The `type` field of a schema node: one tag or a set of tags
(`type?: string | string[]` in `src/json-maker.ts` line 44). -/
inductive TypeDecl where
  | one (t : String)
  | many (ts : List String)
deriving DecidableEq

/-- A schema node: the fields of `JsonSchema` / `JsonSchemaProperty`
(`src/json-maker.ts` lines 15-62) that the validator and the template
synthesizer read.  (`additionalProperties`, `allOf`, `format`,
`definitions`, `title`, `description` are never read by `validateValue` or
`generateFromSchema` and are omitted.)  `dflt` embeds the source field
`default`. -/
inductive SchemaNode where
  | mk (ref : Option String)
       (oneOf : Option (List SchemaNode))
       (anyOf : Option (List SchemaNode))
       (ty : Option TypeDecl)
       (enum : Option (List JsonValue))
       (pattern : Option String)
       (minimum : Option Rat)
       (maximum : Option Rat)
       (minLength : Option Nat)
       (maxLength : Option Nat)
       (required : Option (List String))
       (properties : Option (List (String × SchemaNode)))
       (items : Option SchemaNode)
       (dflt : Option JsonValue)

def SchemaNode.ref : SchemaNode → Option String
  | .mk r _ _ _ _ _ _ _ _ _ _ _ _ _ => r

def SchemaNode.oneOf : SchemaNode → Option (List SchemaNode)
  | .mk _ o _ _ _ _ _ _ _ _ _ _ _ _ => o

def SchemaNode.anyOf : SchemaNode → Option (List SchemaNode)
  | .mk _ _ a _ _ _ _ _ _ _ _ _ _ _ => a

def SchemaNode.ty : SchemaNode → Option TypeDecl
  | .mk _ _ _ t _ _ _ _ _ _ _ _ _ _ => t

def SchemaNode.enum : SchemaNode → Option (List JsonValue)
  | .mk _ _ _ _ e _ _ _ _ _ _ _ _ _ => e

def SchemaNode.pattern : SchemaNode → Option String
  | .mk _ _ _ _ _ p _ _ _ _ _ _ _ _ => p

def SchemaNode.minimum : SchemaNode → Option Rat
  | .mk _ _ _ _ _ _ m _ _ _ _ _ _ _ => m

def SchemaNode.maximum : SchemaNode → Option Rat
  | .mk _ _ _ _ _ _ _ m _ _ _ _ _ _ => m

def SchemaNode.minLength : SchemaNode → Option Nat
  | .mk _ _ _ _ _ _ _ _ m _ _ _ _ _ => m

def SchemaNode.maxLength : SchemaNode → Option Nat
  | .mk _ _ _ _ _ _ _ _ _ m _ _ _ _ => m

def SchemaNode.required : SchemaNode → Option (List String)
  | .mk _ _ _ _ _ _ _ _ _ _ r _ _ _ => r

def SchemaNode.properties : SchemaNode → Option (List (String × SchemaNode))
  | .mk _ _ _ _ _ _ _ _ _ _ _ p _ _ => p

def SchemaNode.items : SchemaNode → Option SchemaNode
  | .mk _ _ _ _ _ _ _ _ _ _ _ _ i _ => i

def SchemaNode.dflt : SchemaNode → Option JsonValue
  | .mk _ _ _ _ _ _ _ _ _ _ _ _ _ d => d

/-- `ValidationError` (`src/json-maker.ts` lines 64-68): `value` is the
optional offending value attached to the violation. -/
structure ValidationError where
  path : String
  message : String
  value : Option JsonValue

/-- `ValidationResult` (`src/json-maker.ts` lines 70-73). -/
structure ValidationResult where
  valid : Bool
  errors : List ValidationError

/-- `JsonMaker.getType` (`src/json-maker.ts` lines 586-591): `null` first,
then `Array.isArray`, then `Number.isInteger`, else `typeof`. -/
def getType : JsonValue → String
  | .null => "null"
  | .arr _ => "array"
  | .num q => if q.den = 1 then "integer" else "number"
  | .bool _ => "boolean"
  | .str _ => "string"
  | .obj _ => "object"

/-- JavaScript strict equality on JSON values as used by
`schema.enum.includes(value)` (`src/json-maker.ts` line 484): structural on
primitives; arrays/objects compare by reference, and a freshly parsed enum
literal is never reference-equal to a candidate, so those cases are
`false`. -/
def jsPrimEq : JsonValue → JsonValue → Bool
  | .null, .null => true
  | .bool a, .bool b => a == b
  | .num a, .num b => a == b
  | .str a, .str b => a == b
  | _, _ => false

/-- String rendering of a JS number inside a template literal
(`5` → `"5"`, `0` → `"0"`); non-integral rationals are rendered with
Lean's `Rat` notation, a benign divergence from JS decimal notation that
no claim touches. -/
def jsNumStr (q : Rat) : String :=
  if q.den = 1 then toString q.num else toString q

/-- Element rendering of `Array.prototype.join` in the enum message
(`src/json-maker.ts` line 487): null renders empty, booleans and numbers
via `String(...)`. -/
def jsDisplay : JsonValue → String
  | .null => ""
  | .bool b => if b then "true" else "false"
  | .num q => jsNumStr q
  | .str s => s
  | .arr _ => ""
  | .obj _ => "[object Object]"

/-- The JS `in` operator on a decoded JSON value (`field in obj`,
`src/json-maker.ts` lines 547 and 559): key membership for objects; for
arrays, index strings and `length` (arrays only reach the object branch
dead code, see `validateValue`). -/
def jsHasKey : JsonValue → String → Bool
  | .obj fields, k => fields.any (fun kv => kv.1 == k)
  | .arr elems, k =>
      k == "length" || (match k.toNat? with
                        | some i => i < elems.length
                        | none => false)
  | _, _ => false

/-- Property read `obj[key]` for a decoded JSON value
(`src/json-maker.ts` line 561). -/
def jsGet : JsonValue → String → JsonValue
  | .obj fields, k =>
      match fields.find? (fun kv => kv.1 == k) with
      | some kv => kv.2
      | none => .null
  | .arr elems, k =>
      if k == "length" then .num elems.length
      else (match k.toNat? with
            | some i => (elems.getD i .null)
            | none => .null)
  | _, _ => .null

/-- Path extension `path ? path + "." + field : field`
(`src/json-maker.ts` lines 549 and 563); the empty root path is falsy. -/
def extendPath (path f : String) : String :=
  if path = "" then f else path ++ "." ++ f

/-- Scanner position state for the conservative regular-expression
validator: whether the position directly follows a quantifiable atom
(`afterAtom`), follows a quantifier so that only a lazy `?` may follow
(`afterQuant`), or follows nothing quantifiable (`noAtom`). -/
inductive RegexCtx where
  | noAtom
  | afterAtom
  | afterQuant
deriving DecidableEq

/-- Escapes accepted outside character classes: character-class escapes,
control escapes and identity escapes of the pattern's special
punctuators — all unconditionally valid ECMA-262 atom escapes. -/
def atomEscapeOk (c : Char) : Bool :=
  (['d', 'D', 's', 'S', 'w', 'W', 't', 'n', 'r', 'f', 'v',
    '^', '$', '\\', '.', '*', '+', '?', '(', ')', '[', ']', '{', '}', '|', '/'] :
    List Char).contains c

/-- Escapes accepted inside character classes (additionally `\b`, the
backspace, and `\-`). -/
def classEscapeOk (c : Char) : Bool :=
  (['d', 'D', 's', 'S', 'w', 'W', 't', 'n', 'r', 'f', 'v', 'b',
    '^', '$', '\\', '.', '*', '+', '?', '(', ')', '[', ']', '{', '}', '|', '/', '-'] :
    List Char).contains c

def isHexDigitCh (c : Char) : Bool :=
  c.isDigit || ('a' ≤ c && c ≤ 'f') || ('A' ≤ c && c ≤ 'F')

def digitsToNat (ds : List Char) : Nat :=
  ds.foldl (fun a c => a * 10 + (c.toNat - 48)) 0

mutual

/-- Conservative validator for ECMA-262 (non-unicode) pattern syntax,
main scan: `depth` counts open groups, `ctx` tracks whether a quantifier
is permitted here.  Accepts alternation, literal pattern characters,
`.`, anchors, balanced `(...)` / `(?:...)` / `(?=...)` / `(?!...)`
groups, quantifiers `*` `+` `?` `{m}` `{m,}` `{m,n}` (with `m ≤ n`, only
after a quantifiable atom, each optionally followed by one lazy `?`),
whitelisted escapes, `\xHH` / `\uHHHH`, and character classes.  Sound:
every accepted pattern is a valid ECMA-262 pattern, so `new RegExp`
cannot throw on it; constructs outside this fragment (octal escapes,
named groups, lookbehind, literal braces, ...) are rejected even when
ECMA-262 would allow them. -/
def rxScan (fuelArg : Nat) (cs : List Char) (depth : Nat) (ctx : RegexCtx) : Bool :=
  match fuelArg with
  | 0 => false
  | fuel + 1 =>
    match cs with
    | [] => depth == 0
    | c :: rest =>
      if c == '\\' then
        match rest with
        | [] => false
        | e :: rest2 =>
          if e == 'b' || e == 'B' then rxScan fuel rest2 depth .noAtom
          else if e == 'x' then
            match rest2 with
            | h1 :: h2 :: rest3 =>
                isHexDigitCh h1 && isHexDigitCh h2 && rxScan fuel rest3 depth .afterAtom
            | _ => false
          else if e == 'u' then
            match rest2 with
            | h1 :: h2 :: h3 :: h4 :: rest3 =>
                isHexDigitCh h1 && isHexDigitCh h2 && isHexDigitCh h3 &&
                  isHexDigitCh h4 && rxScan fuel rest3 depth .afterAtom
            | _ => false
          else if atomEscapeOk e then rxScan fuel rest2 depth .afterAtom
          else false
      else if c == '^' || c == '$' || c == '|' then rxScan fuel rest depth .noAtom
      else if c == '.' then rxScan fuel rest depth .afterAtom
      else if c == '(' then
        match rest with
        | '?' :: g :: rest2 =>
            if g == ':' || g == '=' || g == '!' then rxScan fuel rest2 (depth + 1) .noAtom
            else false
        | '?' :: [] => false
        | _ => rxScan fuel rest (depth + 1) .noAtom
      else if c == ')' then
        match depth with
        | 0 => false
        | dd + 1 => rxScan fuel rest dd .afterAtom
      else if c == '*' || c == '+' then
        ctx == .afterAtom && rxScan fuel rest depth .afterQuant
      else if c == '?' then
        match ctx with
        | .afterAtom => rxScan fuel rest depth .afterQuant
        | .afterQuant => rxScan fuel rest depth .noAtom
        | .noAtom => false
      else if c == '{' then ctx == .afterAtom && rxQuantBrace fuel rest depth
      else if c == '}' || c == ']' then false
      else if c == '[' then
        match rest with
        | '^' :: rest2 => rxClassBody fuel rest2 depth
        | _ => rxClassBody fuel rest depth
      else rxScan fuel rest depth .afterAtom
termination_by structural fuelArg

/-- Brace quantifier after `{`: `m}`, `m,}` or `m,n}` with `m ≤ n`
(`new RegExp("a{2,1}")` throws "numbers out of order"); anything else —
including the Annex-B literal-brace reading — is rejected. -/
def rxQuantBrace (fuelArg : Nat) (cs : List Char) (depth : Nat) : Bool :=
  match fuelArg with
  | 0 => false
  | fuel + 1 =>
    let ds := cs.takeWhile (fun c => c.isDigit)
    let cs1 := cs.dropWhile (fun c => c.isDigit)
    if ds.isEmpty then false
    else
      match cs1 with
      | '}' :: rest => rxScan fuel rest depth .afterQuant
      | ',' :: rest1 =>
          match rest1 with
          | '}' :: rest => rxScan fuel rest depth .afterQuant
          | _ =>
            let ds2 := rest1.takeWhile (fun c => c.isDigit)
            let rest2 := rest1.dropWhile (fun c => c.isDigit)
            if ds2.isEmpty then false
            else
              match rest2 with
              | '}' :: rest =>
                  decide (digitsToNat ds ≤ digitsToNat ds2) &&
                    rxScan fuel rest depth .afterQuant
              | _ => false
      | _ => false
termination_by structural fuelArg

/-- Character-class body after `[` (and an optional leading `^`): items
until the closing `]`; a literal `-` only directly before `]`; ranges
`c1-c2` only between two literal BMP characters with `c1 ≤ c2`
(`new RegExp("[z-a]")` throws "range out of order"; surrogate-pair
endpoints would be compared per UTF-16 unit by JS, so non-BMP endpoints
are rejected outright). -/
def rxClassBody (fuelArg : Nat) (cs : List Char) (depth : Nat) : Bool :=
  match fuelArg with
  | 0 => false
  | fuel + 1 =>
    match cs with
    | [] => false
    | ']' :: rest => rxScan fuel rest depth .afterAtom
    | '-' :: rest =>
        match rest with
        | ']' :: _ => rxClassBody fuel rest depth
        | _ => false
    | '\\' :: rest =>
        match rest with
        | [] => false
        | e :: rest2 =>
          if e == 'x' then
            match rest2 with
            | h1 :: h2 :: rest3 =>
                isHexDigitCh h1 && isHexDigitCh h2 && rxClassAfterItem fuel rest3 depth
            | _ => false
          else if e == 'u' then
            match rest2 with
            | h1 :: h2 :: h3 :: h4 :: rest3 =>
                isHexDigitCh h1 && isHexDigitCh h2 && isHexDigitCh h3 &&
                  isHexDigitCh h4 && rxClassAfterItem fuel rest3 depth
            | _ => false
          else if classEscapeOk e then rxClassAfterItem fuel rest2 depth
          else false
    | c1 :: rest =>
        match rest with
        | '-' :: ']' :: _ => rxClassBody fuel rest depth
        | '-' :: c2 :: rest2 =>
            if c2 == '\\' then false
            else
              decide (c1 ≤ c2) && decide (c1.toNat < 65536) &&
                decide (c2.toNat < 65536) && rxClassBody fuel rest2 depth
        | _ => rxClassBody fuel rest depth
termination_by structural fuelArg

/-- After an escape item in a class: a following `-` may only be the
trailing literal one (escape-bounded ranges are rejected,
conservatively). -/
def rxClassAfterItem (fuelArg : Nat) (cs : List Char) (depth : Nat) : Bool :=
  match fuelArg with
  | 0 => false
  | fuel + 1 =>
    match cs with
    | '-' :: c2 :: _ => if c2 == ']' then rxClassBody fuel cs depth else false
    | _ => rxClassBody fuel cs depth
termination_by structural fuelArg

end

/-- Models the syntax check performed by the `RegExp` constructor
(`new RegExp(schema.pattern)`, `src/json-maker.ts` line 494), which
throws `SyntaxError` on a malformed pattern, by the conservative
validator `rxScan`.  Soundness direction: acceptance implies the real
constructor succeeds (the accepted fragment is unconditionally valid
ECMA-262 non-unicode syntax); rejection covers every malformed pattern
— `"["`, `"*"`, `"+"`, `"(?i)"`, `"a{2,1}"`, `"[z-a]"`, `"(a"` — plus,
conservatively, some exotic Annex-B-only forms on which the constructor
would succeed.  The scan fuel is an upper bound on scanner steps (at
most two per character). -/
def regexSyntaxOk (p : String) : Bool :=
  rxScan (4 * p.length + 8) p.toList 0 .noAtom

/-- Truthiness of `schema.$ref` (`if (schema.$ref)`, line 425): present
and non-empty. -/
def refTruthy : Option String → Bool
  | some r => r != ""
  | none => false

/-- The declared type tags after the truthiness test `if (schemaType)` and
the `Array.isArray` split (`src/json-maker.ts` lines 469-470): an empty
type string is falsy (no check), an array — even empty — is truthy. -/
def typeTags : Option TypeDecl → Option (List String)
  | none => none
  | some (.one t) => if t = "" then none else some [t]
  | some (.many ts) => some ts

/-- Enum check (`src/json-maker.ts` lines 484-490): an `enum` that is
present (any array is truthy, even empty) and does not contain the value
under strict equality appends one violation. -/
def enumCheck (enm : Option (List JsonValue)) (value : JsonValue) (path : String) :
    List ValidationError :=
  match enm with
  | none => []
  | some lits =>
      if lits.any (fun l => jsPrimEq l value) then []
      else [⟨path, "Value must be one of: " ++ String.intercalate ", " (lits.map jsDisplay),
             some value⟩]

/-- Pattern check (`src/json-maker.ts` lines 493-502): runs when `pattern`
is truthy (non-empty) and the value is a string; `new RegExp(pattern)`
throws on a malformed pattern, otherwise `regex.test(value)` decides
(modelled by the parameter `rtest`).  The throw condition is modelled by
the conservative `regexSyntaxOk`: when it accepts, the real constructor
is guaranteed to succeed, so the model's normal returns are faithful;
when it rejects, the model throws — which over-approximates the real
throw set on exotic Annex-B-only patterns, the safe direction for every
no-throw statement proved below. -/
def patternCheck (rtest : String → String → Bool) (pat : Option String)
    (value : JsonValue) (path : String) : Except String (List ValidationError) :=
  match pat, value with
  | some p, .str s =>
      if p = "" then .ok []
      else if regexSyntaxOk p then
        if rtest p s then .ok []
        else .ok [⟨path, "Value does not match pattern: " ++ p, some (.str s)⟩]
      else .error ("Invalid regular expression: /" ++ p ++ "/")
  | _, _ => .ok []

/-- Number range check (`src/json-maker.ts` lines 505-520): applies to any
numeric value regardless of declared type; `minimum` first, then
`maximum`, each bound firing independently. -/
def numberCheck (mini maxi : Option Rat) (value : JsonValue) (path : String) :
    List ValidationError :=
  match value with
  | .num q =>
      (match mini with
       | some m => if q < m then [⟨path, "Value must be >= " ++ jsNumStr m, some (.num q)⟩] else []
       | none => []) ++
      (match maxi with
       | some m => if q > m then [⟨path, "Value must be <= " ++ jsNumStr m, some (.num q)⟩] else []
       | none => [])
  | _ => []

/-- String length check (`src/json-maker.ts` lines 523-538). -/
def lengthCheck (minLen maxLen : Option Nat) (value : JsonValue) (path : String) :
    List ValidationError :=
  match value with
  | .str s =>
      (match minLen with
       | some m => if s.length < m then
            [⟨path, "String length must be >= " ++ toString m, some (.str s)⟩] else []
       | none => []) ++
      (match maxLen with
       | some m => if s.length > m then
            [⟨path, "String length must be <= " ++ toString m, some (.str s)⟩] else []
       | none => [])
  | _ => []

/-- Required-field check (`src/json-maker.ts` lines 545-554): one
violation per required name absent from the value, at the extended path,
with no value attached. -/
def requiredCheck (req : Option (List String)) (value : JsonValue) (path : String) :
    List ValidationError :=
  match req with
  | none => []
  | some fields =>
      fields.filterMap (fun f =>
        if jsHasKey value f then none
        else some ⟨extendPath path f, "Required field missing", none⟩)

/-- Condition of the object branch (`src/json-maker.ts` line 541):
`typeof value === "object" && value !== null`.  (Arrays satisfy it but
can only reach the branch when the declared type is exactly `"object"`,
in which case the earlier type check already returned for them.) -/
def jsTypeofObject : JsonValue → Bool
  | .obj _ => true
  | .arr _ => true
  | _ => false


mutual

/-- Combined size of a schema node's recursive children (its `oneOf`,
`anyOf`, `properties` and `items` subtrees), used as the recursion-depth
bound for `validateValue`: every child has strictly smaller size. -/
def schemaSize : SchemaNode → Nat
  | .mk _ oneOf anyOf _ _ _ _ _ _ _ _ props items _ =>
      1 + sizeOptSubs oneOf + sizeOptSubs anyOf + sizeOptProps props + sizeOptItem items

def sizeOptSubs : Option (List SchemaNode) → Nat
  | none => 0
  | some l => sizeSubs l

def sizeSubs : List SchemaNode → Nat
  | [] => 0
  | s :: rest => schemaSize s + sizeSubs rest

def sizeOptProps : Option (List (String × SchemaNode)) → Nat
  | none => 0
  | some l => sizeProps l

def sizeProps : List (String × SchemaNode) → Nat
  | [] => 0
  | (_, s) :: rest => schemaSize s + sizeProps rest

def sizeOptItem : Option SchemaNode → Nat
  | none => 0
  | some s => schemaSize s

end

/-- The `schema.oneOf.filter(...)` probe (`src/json-maker.ts` lines
432-436): validate the value against each alternative into a fresh,
discarded list, left to right (`f` is the recursive validation of the
fixed value at the fixed path), counting the alternatives with zero
violations; a thrown exception propagates. -/
def oneOfValidCount (f : SchemaNode → Except String (List ValidationError)) :
    List SchemaNode → Except String Nat
  | [] => .ok 0
  | s :: restSubs => do
      let subErrs ← f s
      let n ← oneOfValidCount f restSubs
      pure ((if subErrs.isEmpty then 1 else 0) + n)

/-- The `schema.anyOf.some(...)` probe (`src/json-maker.ts` lines
450-454): like the `oneOf` probe but short-circuiting at the first clean
alternative. -/
def anyOfIsValid (f : SchemaNode → Except String (List ValidationError)) :
    List SchemaNode → Except String Bool
  | [] => .ok false
  | s :: restSubs => do
      let subErrs ← f s
      if subErrs.isEmpty then pure true
      else anyOfIsValid f restSubs

/-- Property descent (`src/json-maker.ts` lines 557-568): for each
declared property present in the value, in declaration order, recursively
validate the corresponding value at the extended path. -/
def validatePropsWith
    (f : JsonValue → SchemaNode → String → Except String (List ValidationError))
    (value : JsonValue) :
    List (String × SchemaNode) → String → Except String (List ValidationError)
  | [], _ => .ok []
  | (k, psch) :: restProps, path => do
      let es ← if jsHasKey value k then f (jsGet value k) psch (extendPath path k)
               else pure []
      let es2 ← validatePropsWith f value restProps path
      pure (es ++ es2)

/-- Item descent (`src/json-maker.ts` lines 572-583): validate each
element (via `f`, the recursive validation against the fixed item schema)
at `path[index]`, zero-based. -/
def validateItemsWith (f : JsonValue → String → Except String (List ValidationError)) :
    List JsonValue → Nat → String → Except String (List ValidationError)
  | [], _, _ => .ok []
  | x :: restElems, idx, path => do
      let es ← f x (path ++ "[" ++ toString idx ++ "]")
      let es2 ← validateItemsWith f restElems (idx + 1) path
      pure (es ++ es2)

/-- The object-structure block (`src/json-maker.ts` lines 541-569): only
when the raw declared type is exactly the string `"object"` (a strict
`===` on `schemaType`, so a tag-array type never enters) and the value is
object-shaped, run the required-field check and then the property
descent. -/
def objStructureCheck
    (f : JsonValue → SchemaNode → String → Except String (List ValidationError))
    (ty : Option TypeDecl) (req : Option (List String))
    (props : Option (List (String × SchemaNode)))
    (value : JsonValue) (path : String) : Except String (List ValidationError) :=
  if ty = some (.one "object") && jsTypeofObject value then do
    let reqErrs := requiredCheck req value path
    let propErrs ←
      match props with
      | some ps => validatePropsWith f value ps path
      | none => pure []
    pure (reqErrs ++ propErrs)
  else pure []

/-- The array-structure block (`src/json-maker.ts` lines 572-583): only
when the raw declared type is exactly the string `"array"` and the value
is an array, validate each element against `items` when present. -/
def itemsStructureCheck
    (f : JsonValue → SchemaNode → String → Except String (List ValidationError))
    (ty : Option TypeDecl) (items : Option SchemaNode)
    (value : JsonValue) (path : String) : Except String (List ValidationError) :=
  match value with
  | .arr elems =>
      if ty = some (.one "array") then
        match items with
        | some isch => validateItemsWith (fun x p => f x isch p) elems 0 path
        | none => pure []
      else pure []
  | _ => pure []

/-- One evaluation step of `JsonMaker.validateValue` (`src/json-maker.ts`
lines 418-584), with the recursive call abstracted as `f`.  Check order
per node, as in the source: `$ref` bypass, `oneOf`, `anyOf`, type check
with early return, enum, pattern, numeric range, string length, object
structure (required fields then properties), array items. -/
def validateBody (rtest : String → String → Bool)
    (f : JsonValue → SchemaNode → String → Except String (List ValidationError))
    (value : JsonValue) (schema : SchemaNode) (path : String) :
    Except String (List ValidationError) :=
  match schema with
  | .mk ref oneOf anyOf ty enm pat mini maxi minLen maxLen req props items _dflt =>
    if refTruthy ref then .ok []
    else match oneOf with
    | some subs => do
        let validCount ← oneOfValidCount (fun sub => f value sub path) subs
        if validCount ≠ 1 then
          pure [⟨path, "Value must match exactly one of the oneOf schemas", some value⟩]
        else pure []
    | none =>
    match anyOf with
    | some subs => do
        let isValid ← anyOfIsValid (fun sub => f value sub path) subs
        if !isValid then
          pure [⟨path, "Value must match at least one of the anyOf schemas", some value⟩]
        else pure []
    | none =>
      let rest : Except String (List ValidationError) := do
        let enumErrs := enumCheck enm value path
        let patErrs ← patternCheck rtest pat value path
        let numErrs := numberCheck mini maxi value path
        let lenErrs := lengthCheck minLen maxLen value path
        let objErrs ← objStructureCheck f ty req props value path
        let itemErrs ← itemsStructureCheck f ty items value path
        pure (enumErrs ++ patErrs ++ numErrs ++ lenErrs ++ objErrs ++ itemErrs)
      match typeTags ty with
      | some types =>
          if types.contains (getType value) then rest
          else
            .ok [⟨path, "Expected type " ++ String.intercalate " | " types ++ ", got " ++
                   getType value, some value⟩]
      | none => rest

/-- `validateBody` iterated with an explicit recursion-depth bound; the
out-of-fuel outcome models a JS stack overflow and is unreachable for
`fuel ≥ schemaSize schema` (`validateFuel_irrel` below shows the result
is then independent of the bound). -/
def validateFuel (rtest : String → String → Bool) :
    Nat → JsonValue → SchemaNode → String → Except String (List ValidationError)
  | 0, _, _, _ => .error "Maximum call stack size exceeded"
  | fuel + 1, value, schema, path => validateBody rtest (validateFuel rtest fuel) value schema path

/-- `JsonMaker.validateValue` (`src/json-maker.ts` lines 418-584): the
step function closed at the sufficient depth bound.  Returns the list of
violations the call appends to the caller-supplied list (appending is the
function's only effect, so the mutable list is equivalent to
concatenating the returned lists in call order), or `Except.error` for a
thrown exception. -/
def validateValue (rtest : String → String → Bool) (value : JsonValue)
    (schema : SchemaNode) (path : String) : Except String (List ValidationError) :=
  validateFuel rtest (schemaSize schema) value schema path

mutual

/-- Every `pattern` field in the schema tree either is falsy (absent or
empty, so never compiled) or is accepted by the conservative `RegExp`
syntax check `regexSyntaxOk` — the precondition under which
`validateValue` cannot throw.  Since acceptance implies genuine
ECMA-262 validity, a schema tree satisfying this predicate also cannot
make the real program throw. -/
def patternsValid : SchemaNode → Bool
  | .mk _ oneOf anyOf _ _ pat _ _ _ _ _ props items _ =>
      (match pat with
       | some p => (p == "") || regexSyntaxOk p
       | none => true)
      && pvOptSubs oneOf && pvOptSubs anyOf && pvOptProps props && pvOptItem items

def pvOptSubs : Option (List SchemaNode) → Bool
  | none => true
  | some l => pvSubs l

def pvSubs : List SchemaNode → Bool
  | [] => true
  | s :: rest => patternsValid s && pvSubs rest

def pvOptProps : Option (List (String × SchemaNode)) → Bool
  | none => true
  | some l => pvProps l

def pvProps : List (String × SchemaNode) → Bool
  | [] => true
  | (_, s) :: rest => patternsValid s && pvProps rest

def pvOptItem : Option SchemaNode → Bool
  | none => true
  | some s => patternsValid s

end

mutual

/-- `JsonMaker.generateFromSchema` (`src/json-maker.ts` lines 607-641):
`type: "array"` gives an empty array; a node whose `type` is not exactly
`"object"` or that lacks `properties` gives an empty object; otherwise
one generated value per declared property, in declaration order. -/
def generateFromSchema : SchemaNode → JsonValue
  | .mk _ _ _ ty _ _ _ _ _ _ _ props _ _ =>
      if ty = some (.one "array") then .arr []
      else if ty ≠ some (.one "object") then .obj []
      else match props with
        | none => .obj []
        | some ps => .obj (genProps ps)

/-- The per-property loop of `generateFromSchema` (`src/json-maker.ts`
lines 618-638), with the choice chain of lines 620-638 inlined (the
standalone form is `genOneProp` below, and `genProps_eq_map` relates the
two): first applicable of the `default` literal, the first `enum` element
(when the enum is non-empty), a zero value by declared primitive type
(`""`, `minimum ?? 0`, `false`, `[]`), a recursive synthesis for
`object`, and otherwise `null`. -/
def genProps : List (String × SchemaNode) → List (String × JsonValue)
  | [] => []
  | (k, psch) :: rest =>
      (k, match psch with
          | .mk _ _ _ ty enm _ mini _ _ _ _ _ _ dflt =>
            match dflt with
            | some d => d
            | none =>
              match enm with
              | some (e :: _) => e
              | _ =>
                if ty = some (.one "string") then .str ""
                else if ty = some (.one "number") || ty = some (.one "integer") then
                  .num (mini.getD 0)
                else if ty = some (.one "boolean") then .bool false
                else if ty = some (.one "array") then .arr []
                else if ty = some (.one "object") then generateFromSchema psch
                else .null) :: genProps rest

end

/-- The per-property choice chain (`src/json-maker.ts` lines 620-638) as
a standalone function; all `type` comparisons are strict string
equalities, so a tag-array `type` falls through to `null`. -/
def genOneProp (psch : SchemaNode) : JsonValue :=
  match psch with
  | .mk _ _ _ ty enm _ mini _ _ _ _ _ _ dflt =>
      match dflt with
      | some d => d
      | none =>
        match enm with
        | some (e :: _) => e
        | _ =>
          if ty = some (.one "string") then .str ""
          else if ty = some (.one "number") || ty = some (.one "integer") then
            .num (mini.getD 0)
          else if ty = some (.one "boolean") then .bool false
          else if ty = some (.one "array") then .arr []
          else if ty = some (.one "object") then generateFromSchema psch
          else .null

/-- The mutable state of a `JsonMaker` instance (`src/json-maker.ts`
lines 102-108): the path-keyed schema cache (a JS `Map`, modelled as an
insertion-ordered association list) and the configured schema
directory. -/
structure MakerState where
  schemaCache : List (String × SchemaNode)
  schemaDir : String

/-- `Map.get` over the association-list model. -/
def cacheGet : List (String × SchemaNode) → String → Option SchemaNode
  | [], _ => none
  | (k, v) :: rest, key => if k = key then some v else cacheGet rest key

/-- `Map.set` over the association-list model: update in place or append. -/
def cacheSet : List (String × SchemaNode) → String → SchemaNode → List (String × SchemaNode)
  | [], key, v => [(key, v)]
  | (k, w) :: rest, key, v =>
      if k = key then (k, v) :: rest else (k, w) :: cacheSet rest key v

/-- `path.isAbsolute`, POSIX model: the path begins with a slash. -/
def isAbsolutePath (p : String) : Bool := p.toList.head? == some '/' 

/-- `path.join`, modelled without normalization. -/
def joinPath (dir p : String) : String := dir ++ "/" ++ p

/-- Path resolution of `JsonMaker.loadSchema` (`src/json-maker.ts` lines
114-116): absolute paths pass through, relative paths resolve against the
schema directory. -/
def resolveSchemaPath (st : MakerState) (schemaPath : String) : String :=
  if isAbsolutePath schemaPath then schemaPath else joinPath st.schemaDir schemaPath

/-- `JsonMaker.loadSchema` (`src/json-maker.ts` lines 113-130).  `fsys`
models the file system (`fs.existsSync` / `fs.readFileSync` as one
partial read), `parseSchema` models `JSON.parse` on the resource text.
Returns the outcome (`Except.error` for a thrown `Error`) together with
the state after the call; the cache is only written after a successful
parse. -/
def loadSchema (fsys : String → Option String)
    (parseSchema : String → Except String SchemaNode)
    (st : MakerState) (schemaPath : String) :
    Except String SchemaNode × MakerState :=
  let fullPath := resolveSchemaPath st schemaPath
  match cacheGet st.schemaCache fullPath with
  | some schema => (.ok schema, st)
  | none =>
    match fsys fullPath with
    | none => (.error ("Schema file not found: " ++ fullPath), st)
    | some content =>
      match parseSchema content with
      | .error e => (.error e, st)
      | .ok schema =>
          (.ok schema, { st with schemaCache := cacheSet st.schemaCache fullPath schema })

/-- `JsonMaker.validate` (`src/json-maker.ts` lines 164-174): load the
schema, validate from the empty root path, `valid` iff no violations.
A throw from `loadSchema` or `validateValue` propagates. -/
def validate (rtest : String → String → Bool) (fsys : String → Option String)
    (parseSchema : String → Except String SchemaNode)
    (st : MakerState) (data : JsonValue) (schemaPath : String) :
    Except String ValidationResult × MakerState :=
  match loadSchema fsys parseSchema st schemaPath with
  | (.error e, st') => (.error e, st')
  | (.ok schema, st') =>
      match validateValue rtest data schema "" with
      | .error e => (.error e, st')
      | .ok errs => (.ok ⟨errs.isEmpty, errs⟩, st')

/-- `JsonMaker.validateFile` (`src/json-maker.ts` lines 179-202): a
missing candidate file gives a single empty-path violation; the
`try/catch` turns any throw from decoding the candidate (`parseJson`
models `JSON.parse`) or from `validate` (including schema-load failures
and pattern compilation) into a single empty-path violation.  The
function always returns a `ValidationResult`. -/
def validateFile (rtest : String → String → Bool) (fsys : String → Option String)
    (parseJson : String → Except String JsonValue)
    (parseSchema : String → Except String SchemaNode)
    (st : MakerState) (filePath schemaPath : String) :
    ValidationResult × MakerState :=
  match fsys filePath with
  | none => (⟨false, [⟨"", "File not found: " ++ filePath, none⟩]⟩, st)
  | some content =>
    match parseJson content with
    | .error e => (⟨false, [⟨"", "Failed to parse JSON: " ++ e, none⟩]⟩, st)
    | .ok data =>
      match validate rtest fsys parseSchema st data schemaPath with
      | (.error e, st') => (⟨false, [⟨"", "Failed to parse JSON: " ++ e, none⟩]⟩, st')
      | (.ok r, st') => (r, st')

theorem schemaSize_pos (s : SchemaNode) : 1 ≤ schemaSize s := by
  cases s with
  | mk r o a ty e pa mi ma miL maL req props items d =>
      simp only [schemaSize]
      omega

theorem schemaSize_le_sizeSubs {sub : SchemaNode} {l : List SchemaNode} (h : sub ∈ l) :
    schemaSize sub ≤ sizeSubs l := by
  induction l with
  | nil => cases h
  | cons x rest ih =>
      rcases List.mem_cons.mp h with rfl | hm
      · simp [sizeSubs]
      · have := ih hm
        simp only [sizeSubs]
        omega

theorem schemaSize_le_sizeProps {kv : String × SchemaNode}
    {l : List (String × SchemaNode)} (h : kv ∈ l) :
    schemaSize kv.2 ≤ sizeProps l := by
  induction l with
  | nil => cases h
  | cons x rest ih =>
      obtain ⟨k, s⟩ := x
      rcases List.mem_cons.mp h with rfl | hm
      · simp [sizeProps]
      · have := ih hm
        simp only [sizeProps]
        omega

theorem schemaSize_child_oneOf {r a ty e pa mi ma miL maL req props items d}
    {subs : List SchemaNode} {sub : SchemaNode} (hm : sub ∈ subs) :
    schemaSize sub <
      schemaSize (SchemaNode.mk r (some subs) a ty e pa mi ma miL maL req props items d) := by
  have := schemaSize_le_sizeSubs hm
  simp only [schemaSize, sizeOptSubs]
  omega

theorem schemaSize_child_anyOf {r o ty e pa mi ma miL maL req props items d}
    {subs : List SchemaNode} {sub : SchemaNode} (hm : sub ∈ subs) :
    schemaSize sub <
      schemaSize (SchemaNode.mk r o (some subs) ty e pa mi ma miL maL req props items d) := by
  have := schemaSize_le_sizeSubs hm
  cases o <;> simp only [schemaSize, sizeOptSubs] <;> omega

theorem schemaSize_child_props {r o a ty e pa mi ma miL maL req items d}
    {ps : List (String × SchemaNode)} {kv : String × SchemaNode} (hm : kv ∈ ps) :
    schemaSize kv.2 <
      schemaSize (SchemaNode.mk r o a ty e pa mi ma miL maL req (some ps) items d) := by
  have := schemaSize_le_sizeProps hm
  simp only [schemaSize, sizeOptProps]
  omega

theorem schemaSize_child_items {r o a ty e pa mi ma miL maL req props d}
    {isch : SchemaNode} :
    schemaSize isch <
      schemaSize (SchemaNode.mk r o a ty e pa mi ma miL maL req props (some isch) d) := by
  simp only [schemaSize, sizeOptItem]
  omega

theorem oneOfValidCount_congr {f g : SchemaNode → Except String (List ValidationError)}
    {subs : List SchemaNode} (h : ∀ sub ∈ subs, f sub = g sub) :
    oneOfValidCount f subs = oneOfValidCount g subs := by
  induction subs with
  | nil => rfl
  | cons s rest ih =>
      simp only [oneOfValidCount]
      rw [h s (List.mem_cons_self s rest),
          ih (fun sub hm => h sub (List.mem_cons_of_mem s hm))]

theorem anyOfIsValid_congr {f g : SchemaNode → Except String (List ValidationError)}
    {subs : List SchemaNode} (h : ∀ sub ∈ subs, f sub = g sub) :
    anyOfIsValid f subs = anyOfIsValid g subs := by
  induction subs with
  | nil => rfl
  | cons s rest ih =>
      simp only [anyOfIsValid]
      rw [h s (List.mem_cons_self s rest),
          ih (fun sub hm => h sub (List.mem_cons_of_mem s hm))]

theorem validatePropsWith_congr
    {f g : JsonValue → SchemaNode → String → Except String (List ValidationError)}
    {value : JsonValue} {props : List (String × SchemaNode)} {path : String}
    (h : ∀ kv ∈ props, ∀ v' p', f v' kv.2 p' = g v' kv.2 p') :
    validatePropsWith f value props path = validatePropsWith g value props path := by
  induction props with
  | nil => rfl
  | cons kv rest ih =>
      obtain ⟨k, psch⟩ := kv
      have ihr := ih (fun kv hm => h kv (List.mem_cons_of_mem _ hm))
      have hh := h ⟨k, psch⟩ (List.mem_cons_self _ _)
      cases hk : jsHasKey value k with
      | false => simp only [validatePropsWith, hk, Bool.false_eq_true, if_false, ihr]
      | true => simp only [validatePropsWith, hk, if_true, ihr, hh]

theorem validateItemsWith_congr
    {f g : JsonValue → String → Except String (List ValidationError)}
    (h : ∀ x p', f x p' = g x p') {elems : List JsonValue} {idx : Nat} {path : String} :
    validateItemsWith f elems idx path = validateItemsWith g elems idx path := by
  induction elems generalizing idx with
  | nil => rfl
  | cons x rest ih =>
      simp only [validateItemsWith]
      rw [h, ih]

theorem objStructureCheck_congr
    {f g : JsonValue → SchemaNode → String → Except String (List ValidationError)}
    {ty : Option TypeDecl} {req : Option (List String)}
    {props : Option (List (String × SchemaNode))} {value : JsonValue} {path : String}
    (h : ∀ ps, props = some ps → ∀ kv ∈ ps, ∀ v' p', f v' kv.2 p' = g v' kv.2 p') :
    objStructureCheck f ty req props value path =
      objStructureCheck g ty req props value path := by
  cases props with
  | none => rfl
  | some ps =>
      have hv : validatePropsWith f value ps path = validatePropsWith g value ps path :=
        validatePropsWith_congr (h ps rfl)
      simp only [objStructureCheck, hv]

theorem itemsStructureCheck_congr
    {f g : JsonValue → SchemaNode → String → Except String (List ValidationError)}
    {ty : Option TypeDecl} {items : Option SchemaNode} {value : JsonValue} {path : String}
    (h : ∀ isch, items = some isch → ∀ x p', f x isch p' = g x isch p') :
    itemsStructureCheck f ty items value path =
      itemsStructureCheck g ty items value path := by
  cases items with
  | none => rfl
  | some isch =>
      have hv : ∀ es i pth,
          validateItemsWith (fun x p => f x isch p) es i pth =
            validateItemsWith (fun x p => g x isch p) es i pth :=
        fun _ _ _ => validateItemsWith_congr (fun x p' => h isch rfl x p')
      simp only [itemsStructureCheck, hv]

theorem validateBody_congr {t : String → String → Bool}
    {f g : JsonValue → SchemaNode → String → Except String (List ValidationError)}
    {value : JsonValue} {schema : SchemaNode} {path : String}
    (h : ∀ v' sub p', schemaSize sub < schemaSize schema → f v' sub p' = g v' sub p') :
    validateBody t f value schema path = validateBody t g value schema path := by
  cases schema with
  | mk r o a ty e pa mi ma miL maL req props items d =>
    simp only [validateBody]
    cases hr : refTruthy r with
    | true => rfl
    | false =>
      simp only [Bool.false_eq_true, if_false]
      cases o with
      | some subs =>
          have hc : oneOfValidCount (fun sub => f value sub path) subs =
              oneOfValidCount (fun sub => g value sub path) subs :=
            oneOfValidCount_congr (fun sub hm =>
              h value sub path (schemaSize_child_oneOf hm))
          simp only [hc]
      | none =>
        cases a with
        | some subs =>
            have hc : anyOfIsValid (fun sub => f value sub path) subs =
                anyOfIsValid (fun sub => g value sub path) subs :=
              anyOfIsValid_congr (fun sub hm =>
                h value sub path (schemaSize_child_anyOf hm))
            simp only [hc]
        | none =>
            have hobj : objStructureCheck f ty req props value path =
                objStructureCheck g ty req props value path :=
              objStructureCheck_congr (fun ps hps kv hm v' p' => by
                subst hps
                exact h v' kv.2 p' (schemaSize_child_props hm))
            have hitems : itemsStructureCheck f ty items value path =
                itemsStructureCheck g ty items value path :=
              itemsStructureCheck_congr (fun isch hisch x p' => by
                subst hisch
                exact h x isch p' schemaSize_child_items)
            simp only [hobj, hitems]

theorem validateFuel_irrel (t : String → String → Bool) :
    ∀ n m (value : JsonValue) (schema : SchemaNode) (path : String),
      schemaSize schema ≤ n → schemaSize schema ≤ m →
      validateFuel t n value schema path = validateFuel t m value schema path := by
  intro n
  induction n using Nat.strong_induction_on with
  | _ n ih =>
    intro m value schema path hn hm
    have hpos := schemaSize_pos schema
    cases n with
    | zero => omega
    | succ n' =>
      cases m with
      | zero => omega
      | succ m' =>
        simp only [validateFuel]
        apply validateBody_congr
        intro v' sub p' hlt
        exact ih n' (Nat.lt_succ_self n') m' v' sub p' (by omega) (by omega)

/-- Unfolding principle for `validateValue`: it satisfies the recursive
equation of the source function (one `validateBody` step whose recursive
occurrences are `validateValue` itself). -/
theorem validateValue_unfold (t : String → String → Bool) (value : JsonValue)
    (schema : SchemaNode) (path : String) :
    validateValue t value schema path =
      validateBody t (fun v' sub p' => validateValue t v' sub p') value schema path := by
  unfold validateValue
  have hpos := schemaSize_pos schema
  obtain ⟨k, hk⟩ : ∃ k, schemaSize schema = k + 1 := ⟨schemaSize schema - 1, by omega⟩
  rw [hk]
  simp only [validateFuel]
  apply validateBody_congr
  intro v' sub p' hlt
  exact validateFuel_irrel t k (schemaSize sub) v' sub p' (by omega) (le_refl _)

theorem exceptBind_ok {α β : Type} (x : α) (k : α → Except String β) :
    (Except.ok x >>= k) = k x := rfl

theorem exceptBind_error {α β : Type} (e : String) (k : α → Except String β) :
    ((Except.error e : Except String α) >>= k) = .error e := rfl

theorem refTruthy_none : refTruthy none = false := rfl

theorem exceptPure_ok {α : Type} (x : α) : (pure x : Except String α) = .ok x := rfl

/-- Violation produced by the type check (`src/json-maker.ts` lines
473-478). -/
def typeMismatchError (ts : List String) (value : JsonValue) (path : String) :
    ValidationError :=
  ⟨path, "Expected type " ++ String.intercalate " | " ts ++ ", got " ++ getType value,
   some value⟩

/-- Core of the declared-type check: on a node with no `$ref`, `oneOf` or
`anyOf` whose declared tags exclude the classified tag of the value,
`validateValue` appends exactly the type-mismatch violation at the node's
path and returns — the remaining checks never run and no deeper
violations arise. -/
theorem validateValue_type_mismatch (t : String → String → Bool) (v : JsonValue)
    (path : String) {s : SchemaNode} {ts : List String}
    (h1 : s.ref = none) (h2 : s.oneOf = none) (h3 : s.anyOf = none)
    (h4 : typeTags s.ty = some ts) (h5 : ts.contains (getType v) = false) :
    validateValue t v s path = .ok [typeMismatchError ts v path] := by
  cases s with
  | mk r o a ty e pa mi ma miL maL req props items d =>
    simp only [SchemaNode.ref] at h1
    simp only [SchemaNode.oneOf] at h2
    simp only [SchemaNode.anyOf] at h3
    simp only [SchemaNode.ty] at h4
    subst h1 h2 h3
    rw [validateValue_unfold]
    simp only [validateBody, refTruthy_none, Bool.false_eq_true, if_false, h4, h5,
      typeMismatchError]

/-- C2: for every schema node with no `$ref`, `oneOf` or `anyOf` that
declares a type, and every candidate value whose classified tag is not
among the declared tag(s), validation appends exactly one violation at
that node's path, naming the expected and actual tags, and returns
immediately — so no enum, pattern, numeric-range, string-length,
required-field, property or item check runs on that node and no
violations are produced at deeper paths beneath it (the result is exactly
the singleton at `path`). -/
theorem type_mismatch_single_violation_and_early_return
    (t : String → String → Bool) (v : JsonValue) (path : String)
    (s : SchemaNode) (l : List String)
    (h1 : s.ref = none) (h2 : s.oneOf = none) (h3 : s.anyOf = none)
    (h4 : typeTags s.ty = some l) (h5 : l.contains (getType v) = false) :
    validateValue t v s path = .ok [typeMismatchError l v path] :=
  validateValue_type_mismatch t v path h1 h2 h3 h4 h5

/-- A node declaring `type: "string"` together with constraints and
subschemas that would all fire if reached (an unsatisfiable enum, a
minimum length, a required field, a property schema): an object-shaped
candidate yields exactly the type-mismatch violation at the node's path
and nothing deeper. -/
def c2Schema : SchemaNode :=
  .mk none none none (some (.one "string")) (some [.str "zzz"]) none none none
     (some 5) none (some ["missing-field"])
     (some [("a", .mk none none none (some (.one "string")) none none none none
                     none none none none none none)])
     none none

theorem type_mismatch_single_violation_witness :
    validateValue (fun _ _ => false) (.obj [("a", .num 1)]) c2Schema "root" =
      .ok [⟨"root", "Expected type string, got object", some (.obj [("a", .num 1)])⟩] := by
  rw [type_mismatch_single_violation_and_early_return (fun _ _ => false)
        (.obj [("a", .num 1)]) "root" c2Schema ["string"] rfl rfl rfl rfl rfl]
  rfl

/-- C5: an exactly integral numeric value is classified `"integer"`, so a
node declaring exactly `type: "number"` (with no `$ref`, `oneOf`,
`anyOf`) rejects it with a type-mismatch violation at the node's path;
and in general an integral number passes the declared-type check iff
`"integer"` is among the declared tags — listing `"number"` alone never
accepts it. -/
theorem number_tag_rejects_integral_value
    (t : String → String → Bool) (path : String) (q : Rat) (s : SchemaNode)
    (hq : q.den = 1)
    (h1 : s.ref = none) (h2 : s.oneOf = none) (h3 : s.anyOf = none) :
    getType (.num q) = "integer"
    ∧ (s.ty = some (.one "number") →
        validateValue t (.num q) s path =
          .ok [⟨path, "Expected type number, got integer", some (.num q)⟩])
    ∧ (∀ l, typeTags s.ty = some l →
        (l.contains (getType (.num q)) = l.contains "integer")) := by
  have hg : getType (.num q) = "integer" := by simp [getType, hq]
  refine ⟨hg, fun hty => ?_, fun l _ => by rw [hg]⟩
  have h4 : typeTags s.ty = some ["number"] := by
    rw [hty]
    rfl
  have h5 : (["number"] : List String).contains (getType (.num q)) = false := by
    rw [hg]
    rfl
  have hv := validateValue_type_mismatch t (.num q) path h1 h2 h3 h4 h5
  rw [hv]
  simp only [typeMismatchError, hg]
  rfl

def c5Schema : SchemaNode :=
  .mk none none none (some (.one "number")) none none none none none none none none
     none none

theorem number_tag_rejects_integral_value_witness :
    getType (.num 3) = "integer"
    ∧ validateValue (fun _ _ => false) (.num 3) c5Schema "n" =
        .ok [⟨"n", "Expected type number, got integer", some (.num 3)⟩]
    ∧ (["number"] : List String).contains (getType (.num 3)) = false := by
  obtain ⟨ha, hb, hc⟩ := number_tag_rejects_integral_value (fun _ _ => false) "n" 3
    c5Schema (by rfl) (by rfl) (by rfl) (by rfl)
  refine ⟨ha, hb rfl, ?_⟩
  rw [hc ["number"] rfl]
  rfl

/-- The predicate counted by the `oneOf` probe: validating the value
against the alternative produced zero violations (`subErrors.length === 0`
on line 435 of `src/json-maker.ts`). -/
def matchesCleanly (t : String → String → Bool) (v : JsonValue)
    (sub : SchemaNode) (path : String) : Bool :=
  match validateValue t v sub path with
  | .ok [] => true
  | _ => false

theorem oneOfValidCount_eq_countP
    {f : SchemaNode → Except String (List ValidationError)} {subs : List SchemaNode}
    (hok : ∀ sub ∈ subs, ∃ es, f sub = .ok es) :
    oneOfValidCount f subs =
      .ok (subs.countP (fun sub =>
        match f sub with
        | .ok [] => true
        | _ => false)) := by
  induction subs with
  | nil => rfl
  | cons s rest ih =>
      obtain ⟨es, hes⟩ := hok s (List.mem_cons_self _ _)
      have ihr := ih (fun sub hm => hok sub (List.mem_cons_of_mem _ hm))
      simp only [oneOfValidCount, hes, ihr, exceptBind_ok, List.countP_cons]
      cases es with
      | nil => simp [Nat.add_comm, exceptPure_ok]
      | cons e es' => simp [Nat.add_comm, exceptPure_ok]

/-- C1: on a node with no `$ref` but with a `oneOf` list, provided every
alternative validates without throwing, the validator probes each
alternative into a fresh discarded list, counts the alternatives with
zero violations, and returns exactly one violation at the node's path
when that count is not 1 and none from this node when it is — in either
case performing no further checks on the node (the result is exactly the
conditional singleton, whatever the node's other fields). -/
theorem oneOf_counts_clean_alternatives
    (t : String → String → Bool) (v : JsonValue) (path : String)
    (s : SchemaNode) (subs : List SchemaNode)
    (h1 : s.ref = none) (h2 : s.oneOf = some subs)
    (hok : ∀ sub ∈ subs, ∃ es, validateValue t v sub path = .ok es) :
    validateValue t v s path =
      .ok (if subs.countP (fun sub => matchesCleanly t v sub path) = 1 then []
           else [⟨path, "Value must match exactly one of the oneOf schemas", some v⟩]) := by
  cases s with
  | mk r o a ty e pa mi ma miL maL req props items d =>
    simp only [SchemaNode.ref] at h1
    simp only [SchemaNode.oneOf] at h2
    subst h1 h2
    rw [validateValue_unfold]
    simp only [validateBody, refTruthy_none, Bool.false_eq_true, if_false]
    rw [oneOfValidCount_eq_countP hok]
    simp only [exceptBind_ok, matchesCleanly]
    by_cases hc : subs.countP (fun sub =>
        match validateValue t v sub path with
        | .ok [] => true
        | _ => false) = 1
    · simp [hc, exceptPure_ok]
    · simp [hc, exceptPure_ok]

/-- `oneOf` alternatives for the witness: `type: "string"` twice, so a
string candidate matches both and the count is 2. -/
def c1Alt : SchemaNode :=
  .mk none none none (some (.one "string")) none none none none none none none none
     none none

def c1Schema : SchemaNode :=
  .mk none (some [c1Alt, c1Alt]) none none none none none none none none none none
     none none

theorem oneOf_counts_clean_alternatives_witness :
    validateValue (fun _ _ => false) (.str "x") c1Schema "p" =
      .ok [⟨"p", "Value must match exactly one of the oneOf schemas", some (.str "x")⟩] := by
  rw [oneOf_counts_clean_alternatives (fun _ _ => false) (.str "x") "p" c1Schema
        [c1Alt, c1Alt] rfl rfl
        (by
          intro sub hm
          rcases List.mem_cons.mp hm with rfl | hm2
          · exact ⟨[], rfl⟩
          · rcases List.mem_cons.mp hm2 with rfl | hm3
            · exact ⟨[], rfl⟩
            · cases hm3)]
  rfl

theorem patternCheck_obj {t : String → String → Bool} {pat : Option String}
    {fields : List (String × JsonValue)} {path : String} :
    patternCheck t pat (.obj fields) path = .ok [] := by
  cases pat <;> rfl

theorem numberCheck_obj {mi ma : Option Rat} {fields : List (String × JsonValue)}
    {path : String} : numberCheck mi ma (.obj fields) path = [] := rfl

theorem lengthCheck_obj {miL maL : Option Nat} {fields : List (String × JsonValue)}
    {path : String} : lengthCheck miL maL (.obj fields) path = [] := rfl

theorem itemsStructureCheck_obj
    {f : JsonValue → SchemaNode → String → Except String (List ValidationError)}
    {ty : Option TypeDecl} {items : Option SchemaNode}
    {fields : List (String × JsonValue)} {path : String} :
    itemsStructureCheck f ty items (.obj fields) path = .ok [] := rfl

theorem requiredCheck_some_eq {req : List String} {value : JsonValue} {path : String} :
    requiredCheck (some req) value path =
      (req.filter (fun fl => !(jsHasKey value fl))).map
        (fun fl => ⟨extendPath path fl, "Required field missing", none⟩) := by
  induction req with
  | nil => rfl
  | cons fl rest ih =>
      cases hk : jsHasKey value fl with
      | true =>
          simp only [requiredCheck] at ih
          simp only [requiredCheck, List.filterMap_cons, List.filter_cons, hk, if_true,
            Bool.not_true, Bool.false_eq_true, if_false, ih]
      | false =>
          simp only [requiredCheck] at ih
          simp only [requiredCheck, List.filterMap_cons, List.filter_cons, hk,
            Bool.false_eq_true, if_false, Bool.not_false, if_true, ih, List.map_cons]

/-- Counterexample to C3 as stated: the schema
`{type: ["object", "null"], required: ["id"]}` declares a tag SET that
includes `"object"`, and the empty object is object-shaped with `"id"`
absent, yet validation produces no violation at all — the object-structure
block (line 541 of `src/json-maker.ts`) compares the raw `schema.type`
against the string `"object"` with `===`, which an array never equals, so
the required-field check is skipped. -/
def c3TagSetSchema : SchemaNode :=
  .mk none none none (some (.many ["object", "null"])) none none none none none none
     (some ["id"]) none none none

theorem required_skipped_for_type_tag_set :
    validateValue (fun _ _ => false) (.obj []) c3TagSetSchema "" = .ok [] ∧
    ¬ ∃ es, validateValue (fun _ _ => false) (.obj []) c3TagSetSchema "" = .ok es ∧
        (⟨"id", "Required field missing", none⟩ : ValidationError) ∈ es := by
  refine ⟨rfl, ?_⟩
  rintro ⟨es, hes, hmem⟩
  have h0 : validateValue (fun _ _ => false) (.obj []) c3TagSetSchema "" =
      .ok ([] : List ValidationError) := rfl
  rw [h0] at hes
  injection hes with hes'
  rw [← hes'] at hmem
  cases hmem

/-- C3 (amended): the object-structure checks run only when the declared
type is exactly the single tag `"object"` (a tag set such as
`["object", "null"]` skips them, see the counterexample); in that case,
for an object-shaped candidate, each name in `required` absent from the
value produces exactly one violation at the node's path extended with
that name, message "Required field missing", with no value attached —
these appear after any enum violation of the node and before the
property-descent violations `pes`. -/
theorem required_missing_violations_for_exact_object_type
    (t : String → String → Bool) (fields : List (String × JsonValue)) (path : String)
    (s : SchemaNode) (req : List String) (pes : List ValidationError)
    (h1 : s.ref = none) (h2 : s.oneOf = none) (h3 : s.anyOf = none)
    (h4 : s.ty = some (.one "object"))
    (h5 : s.required = some req)
    (hp : validatePropsWith (fun v' sub p' => validateValue t v' sub p')
            (.obj fields) ((s.properties).getD []) path = .ok pes) :
    validateValue t (.obj fields) s path =
      .ok (enumCheck s.enum (.obj fields) path
           ++ ((req.filter (fun fl => !(jsHasKey (.obj fields) fl))).map
                (fun fl => ⟨extendPath path fl, "Required field missing", none⟩))
           ++ pes) := by
  cases s with
  | mk r o a ty e pa mi ma miL maL rq props items d =>
    simp only [SchemaNode.ref] at h1
    simp only [SchemaNode.oneOf] at h2
    simp only [SchemaNode.anyOf] at h3
    simp only [SchemaNode.ty] at h4
    simp only [SchemaNode.required] at h5
    simp only [SchemaNode.properties] at hp
    simp only [SchemaNode.enum]
    subst h1 h2 h3 h4 h5
    rw [validateValue_unfold]
    simp only [validateBody, refTruthy_none, Bool.false_eq_true, if_false]
    rw [show typeTags (some (TypeDecl.one "object")) = some ["object"] from rfl]
    simp only [show (["object"] : List String).contains (getType (.obj fields)) = true from
        rfl, if_true, patternCheck_obj, exceptBind_ok, numberCheck_obj, lengthCheck_obj,
      itemsStructureCheck_obj, objStructureCheck, jsTypeofObject]
    cases props with
    | none =>
        simp only [Option.getD_none] at hp
        have hpes : pes = [] := by
          have : (Except.ok [] : Except String (List ValidationError)) = .ok pes := hp
          injection this with h'
          exact h'.symm
        subst hpes
        simp [requiredCheck_some_eq, exceptPure_ok, exceptBind_ok, List.append_assoc]
    | some ps =>
        simp only [Option.getD_some] at hp
        simp only [hp, exceptBind_ok, exceptPure_ok]
        simp [requiredCheck_some_eq, exceptPure_ok, exceptBind_ok, List.append_assoc]

def c3ExactSchema : SchemaNode :=
  .mk none none none (some (.one "object")) none none none none none none
     (some ["id"]) none none none

theorem required_missing_violations_witness :
    validateValue (fun _ _ => false) (.obj [("count", .num 1)]) c3ExactSchema "" =
      .ok [⟨"id", "Required field missing", none⟩] := by
  rw [required_missing_violations_for_exact_object_type (fun _ _ => false)
        [("count", .num 1)] "" c3ExactSchema ["id"] [] rfl rfl rfl rfl rfl rfl]
  rfl

/-- The end-to-end example schema of C6:
`{type: "object", required: ["id"],
  properties: {id: {type: "string"}, count: {type: "integer", minimum: 0}}}`. -/
def c6Schema : SchemaNode :=
  .mk none none none (some (.one "object")) none none none none none none
     (some ["id"])
     (some [("id", .mk none none none (some (.one "string")) none none none none
                      none none none none none none),
            ("count", .mk none none none (some (.one "integer")) none none (some 0)
                         none none none none none none none)])
     none none

def c6Value : JsonValue := .obj [("count", .num (-1))]

def c6Fsys : String → Option String := fun _ => some "c6-schema-resource"

def c6Parse : String → Except String SchemaNode := fun _ => .ok c6Schema

def c6State : MakerState := ⟨[], "./json-schema"⟩

/-- C6: validating `{count: -1}` against the example schema from the
empty root path yields `valid = false` with exactly two violations in
this order: the required-field violation at `"id"` first (the
required-field loop precedes property descent in the per-node check
order), then the minimum-bound violation at `"count"` — for any regex
semantics, since no pattern occurs. -/
theorem end_to_end_two_violations_in_order (t : String → String → Bool) :
    validate t c6Fsys c6Parse c6State c6Value "test-schema.json" =
      (.ok ⟨false, [⟨"id", "Required field missing", none⟩,
                    ⟨"count", "Value must be >= 0", some (.num (-1))⟩]⟩,
       ⟨[("./json-schema/test-schema.json", c6Schema)], "./json-schema"⟩) := by
  rfl

theorem cacheGet_cacheSet_self (l : List (String × SchemaNode)) (k : String)
    (v : SchemaNode) : cacheGet (cacheSet l k v) k = some v := by
  induction l with
  | nil => simp [cacheSet, cacheGet]
  | cons kv rest ih =>
      obtain ⟨k', w⟩ := kv
      by_cases hk : k' = k
      · subst hk
        simp [cacheSet, cacheGet]
      · simp [cacheSet, cacheGet, hk, ih]

/-- C7: when a load succeeds, any later load of the same name against the
resulting state resolves to the same path and returns the very tree
stored in the cache with the state unchanged — and the result no longer
depends on the file system or the parser (both are universally
quantified in the conclusion), so no resource read or parse is
performed.  In the model the cached tree is returned as-is, which is the
reference-identity of the JS `Map` lookup (`src/json-maker.ts` lines
118-120). -/
theorem loadSchema_idempotent_identity
    (fsys : String → Option String) (parseSchema : String → Except String SchemaNode)
    (st : MakerState) (name : String) (sch : SchemaNode) (st1 : MakerState)
    (h : loadSchema fsys parseSchema st name = (.ok sch, st1)) :
    ∀ (fsys' : String → Option String)
      (parseSchema' : String → Except String SchemaNode),
      loadSchema fsys' parseSchema' st1 name = (.ok sch, st1) := by
  intro fsys' parseSchema'
  have key : st1.schemaDir = st.schemaDir ∧
      cacheGet st1.schemaCache (resolveSchemaPath st name) = some sch := by
    simp only [loadSchema] at h
    split at h
    case h_1 s0 heq =>
        injection h with h1 h2
        injection h1 with h1
        subst h1
        subst h2
        exact ⟨rfl, heq⟩
    case h_2 heq =>
        split at h
        case h_1 => exact absurd (congrArg Prod.fst h) (by simp)
        case h_2 content hcontent =>
            split at h
            case h_1 => exact absurd (congrArg Prod.fst h) (by simp)
            case h_2 schema hparse =>
                injection h with h1 h2
                injection h1 with h1
                subst h1
                subst h2
                exact ⟨rfl, cacheGet_cacheSet_self _ _ _⟩
  have hres : resolveSchemaPath st1 name = resolveSchemaPath st name := by
    simp [resolveSchemaPath, joinPath, key.1]
  have hb : cacheGet st1.schemaCache (resolveSchemaPath st1 name) = some sch := by
    rw [hres]
    exact key.2
  simp only [loadSchema, hb]

def c7Fsys : String → Option String :=
  fun p => if p = "/schemas/abs.json" then some "c7-resource" else none

def c7Schema : SchemaNode :=
  .mk none none none (some (.one "object")) none none none none none none none none
     none none

def c7Parse : String → Except String SchemaNode := fun _ => .ok c7Schema

theorem loadSchema_idempotent_identity_witness :
    loadSchema (fun _ => none) (fun _ => .error "unreadable")
        ⟨[("/schemas/abs.json", c7Schema)], "./json-schema"⟩ "/schemas/abs.json" =
      (.ok c7Schema, ⟨[("/schemas/abs.json", c7Schema)], "./json-schema"⟩) :=
  loadSchema_idempotent_identity c7Fsys c7Parse ⟨[], "./json-schema"⟩
    "/schemas/abs.json" c7Schema ⟨[("/schemas/abs.json", c7Schema)], "./json-schema"⟩
    rfl (fun _ => none) (fun _ => .error "unreadable")

/-- C10: a failed load — missing resource or parse failure — leaves the
cache exactly as it was (the `Map.set` on line 128 of `src/json-maker.ts`
runs only after a successful parse), the resolved path has no cache
entry, and a subsequent load of the same name against the post-failure
state re-attempts the resource read: with a file system and parser that
now succeed, it reads, parses and caches the tree. -/
theorem loadSchema_failure_leaves_cache_unchanged
    (fsys : String → Option String) (parseSchema : String → Except String SchemaNode)
    (st : MakerState) (name : String) (e : String) (st' : MakerState)
    (h : loadSchema fsys parseSchema st name = (.error e, st')) :
    st' = st ∧ cacheGet st.schemaCache (resolveSchemaPath st name) = none ∧
    ∀ (fsys' : String → Option String)
      (parseSchema' : String → Except String SchemaNode) (c : String) (sch : SchemaNode),
      fsys' (resolveSchemaPath st name) = some c →
      parseSchema' c = .ok sch →
      loadSchema fsys' parseSchema' st' name =
        (.ok sch,
         (⟨cacheSet st.schemaCache (resolveSchemaPath st name) sch, st.schemaDir⟩ :
           MakerState)) := by
  simp only [loadSchema] at h
  split at h
  case h_1 s0 heq => exact absurd (congrArg Prod.fst h) (by simp)
  case h_2 heq =>
      have hst : st' = st := by
        split at h
        case h_1 =>
            injection h with h1 h2
            exact h2.symm
        case h_2 content hcontent =>
            split at h
            case h_1 e2 =>
                injection h with h1 h2
                exact h2.symm
            case h_2 schema hparse => exact absurd (congrArg Prod.fst h) (by simp)
      subst hst
      refine ⟨rfl, heq, ?_⟩
      intro fsys' parseSchema' c sch hc hparse
      simp only [loadSchema, heq, hc, hparse]

def c10State : MakerState := ⟨[], "./json-schema"⟩

theorem loadSchema_failure_leaves_cache_unchanged_witness :
    c10State = c10State ∧
    cacheGet c10State.schemaCache (resolveSchemaPath c10State "missing.json") = none ∧
    ∀ (fsys' : String → Option String)
      (parseSchema' : String → Except String SchemaNode) (c : String) (sch : SchemaNode),
      fsys' (resolveSchemaPath c10State "missing.json") = some c →
      parseSchema' c = .ok sch →
      loadSchema fsys' parseSchema' c10State "missing.json" =
        (.ok sch,
         (⟨cacheSet c10State.schemaCache (resolveSchemaPath c10State "missing.json") sch,
           c10State.schemaDir⟩ : MakerState)) :=
  loadSchema_failure_leaves_cache_unchanged (fun _ => none) (fun _ => .error "n/a")
    c10State "missing.json" "Schema file not found: ./json-schema/missing.json" c10State
    rfl

/-- C9: `validateFile` is a total function into `ValidationResult ×
MakerState` — by its type it always returns a result and never raises
(every throw inside the `try` of `src/json-maker.ts` lines 187-201 is
caught) — and on a decode failure of the candidate it returns `valid =
false` with exactly one violation whose path is the empty string and
whose message describes the failure: "File not found: ..." when the file
is missing, "Failed to parse JSON: ..." when its content cannot be
decoded. -/
theorem validateFile_decode_failure_single_violation
    (t : String → String → Bool) (fsys : String → Option String)
    (parseJson : String → Except String JsonValue)
    (parseSchema : String → Except String SchemaNode)
    (st : MakerState) (filePath schemaPath : String) :
    (fsys filePath = none →
      validateFile t fsys parseJson parseSchema st filePath schemaPath =
        (⟨false, [⟨"", "File not found: " ++ filePath, none⟩]⟩, st))
    ∧ (∀ c m, fsys filePath = some c → parseJson c = .error m →
        validateFile t fsys parseJson parseSchema st filePath schemaPath =
          (⟨false, [⟨"", "Failed to parse JSON: " ++ m, none⟩]⟩, st)) := by
  constructor
  · intro h
    simp only [validateFile, h]
  · intro c m hc hm
    simp only [validateFile, hc, hm]

theorem validateFile_decode_failure_witness :
    validateFile (fun _ _ => false) (fun _ => none) (fun _ => .error "n/a")
        (fun _ => .ok c7Schema) c10State "data/colors/red.json" "schema.json" =
      (⟨false, [⟨"", "File not found: data/colors/red.json", none⟩]⟩, c10State)
    ∧ validateFile (fun _ _ => false) (fun _ => some "not json")
        (fun _ => .error "Unexpected token")
        (fun _ => .ok c7Schema) c10State "data/colors/red.json" "schema.json" =
      (⟨false, [⟨"", "Failed to parse JSON: Unexpected token", none⟩]⟩, c10State) :=
  ⟨(validateFile_decode_failure_single_violation (fun _ _ => false) (fun _ => none)
      (fun _ => .error "n/a") (fun _ => .ok c7Schema) c10State "data/colors/red.json"
      "schema.json").1 rfl,
   (validateFile_decode_failure_single_violation (fun _ _ => false)
      (fun _ => some "not json") (fun _ => .error "Unexpected token")
      (fun _ => .ok c7Schema) c10State "data/colors/red.json"
      "schema.json").2 "not json" "Unexpected token" rfl rfl⟩

theorem genProps_eq_map (l : List (String × SchemaNode)) :
    genProps l = l.map (fun kp => (kp.1, genOneProp kp.2)) := by
  induction l with
  | nil => rfl
  | cons kv rest ih =>
      obtain ⟨k, psch⟩ := kv
      cases psch
      simp only [genProps, genOneProp, List.map_cons, ih]

theorem generateFromSchema_object {r : Option String} {o a : Option (List SchemaNode)}
    {e : Option (List JsonValue)} {pa : Option String} {mi ma : Option Rat}
    {miL maL : Option Nat} {req : Option (List String)}
    {ps : List (String × SchemaNode)} {items : Option SchemaNode} {d : Option JsonValue} :
    generateFromSchema
        (.mk r o a (some (.one "object")) e pa mi ma miL maL req (some ps) items d) =
      .obj (genProps ps) := by
  rfl

/-- The C8 example schema
`{type: "object", properties: {n: {type: "number", minimum: 5}}}`. -/
def c8Schema : SchemaNode :=
  .mk none none none (some (.one "object")) none none none none none none none
     (some [("n", .mk none none none (some (.one "number")) none none (some 5) none
                     none none none none none none)])
     none none

/-- C8: template synthesis is a total function of the schema tree (hence
deterministic: equal schemas give structurally identical output); for a
declared object with properties it emits one value per property in
declaration order, each the first applicable of the `default` literal,
the first `enum` element, the zero value by declared primitive type
(shown here for `"number"`: `minimum ?? 0`), a recursive synthesis for
`object`, and otherwise `null`; and the example schema synthesizes to
`{n: 5}`. -/
theorem generateFromSchema_first_applicable
    (s : SchemaNode) (ps : List (String × SchemaNode))
    (h4 : s.ty = some (.one "object")) (h5 : s.properties = some ps) :
    generateFromSchema s = .obj (ps.map (fun kp => (kp.1, genOneProp kp.2)))
    ∧ (∀ p d, p.dflt = some d → genOneProp p = d)
    ∧ (∀ p e l, p.dflt = none → p.enum = some (e :: l) → genOneProp p = e)
    ∧ (∀ p, p.dflt = none → (p.enum = none ∨ p.enum = some []) →
         p.ty = some (.one "number") → genOneProp p = .num (p.minimum.getD 0))
    ∧ generateFromSchema c8Schema = .obj [("n", .num 5)] := by
  refine ⟨?_, ?_, ?_, ?_, by rfl⟩
  · cases s with
    | mk r o a ty e pa mi ma miL maL req props items d =>
        simp only [SchemaNode.ty] at h4
        simp only [SchemaNode.properties] at h5
        subst h4
        subst h5
        rw [generateFromSchema_object, genProps_eq_map]
  · intro p d hd
    cases p with
    | mk r o a ty e pa mi ma miL maL req props items dl =>
        simp only [SchemaNode.dflt] at hd
        subst hd
        rfl
  · intro p e l hd he
    cases p with
    | mk r o a ty en pa mi ma miL maL req props items dl =>
        simp only [SchemaNode.dflt] at hd
        simp only [SchemaNode.enum] at he
        subst hd
        subst he
        rfl
  · intro p hd he hty
    cases p with
    | mk r o a ty en pa mi ma miL maL req props items dl =>
        simp only [SchemaNode.dflt] at hd
        simp only [SchemaNode.enum] at he
        simp only [SchemaNode.ty] at hty
        subst hd
        subst hty
        rcases he with he | he <;> subst he <;> rfl

theorem generateFromSchema_first_applicable_witness :
    generateFromSchema c8Schema = .obj [("n", .num 5)] :=
  (generateFromSchema_first_applicable c8Schema
      [("n", .mk none none none (some (.one "number")) none none (some 5) none
               none none none none none none)]
      rfl rfl).2.2.2.2

theorem patternsValid_of_mem_pvSubs {l : List SchemaNode} (h : pvSubs l = true)
    {sub : SchemaNode} (hm : sub ∈ l) : patternsValid sub = true := by
  induction l with
  | nil => cases hm
  | cons s rest ih =>
      simp only [pvSubs, Bool.and_eq_true] at h
      rcases List.mem_cons.mp hm with rfl | hm2
      · exact h.1
      · exact ih h.2 hm2

theorem patternsValid_of_mem_pvProps {l : List (String × SchemaNode)}
    (h : pvProps l = true) {kv : String × SchemaNode} (hm : kv ∈ l) :
    patternsValid kv.2 = true := by
  induction l with
  | nil => cases hm
  | cons kv' rest ih =>
      obtain ⟨k, s⟩ := kv'
      simp only [pvProps, Bool.and_eq_true] at h
      rcases List.mem_cons.mp hm with rfl | hm2
      · exact h.1
      · exact ih h.2 hm2

theorem patternCheck_ok (t : String → String → Bool) (pat : Option String)
    (v : JsonValue) (path : String)
    (h : (match pat with
          | some p => (p == "") || regexSyntaxOk p
          | none => true) = true) :
    ∃ es, patternCheck t pat v path = .ok es := by
  cases pat with
  | none =>
      refine ⟨[], ?_⟩
      cases v <;> rfl
  | some p =>
      cases v with
      | str sv =>
          simp only [Bool.or_eq_true, beq_iff_eq] at h
          by_cases hp0 : p = ""
          · exact ⟨[], by simp [patternCheck, hp0]⟩
          · have hok : regexSyntaxOk p = true := by
              rcases h with h | h
              · exact absurd h hp0
              · exact h
            cases ht : t p sv with
            | true => exact ⟨[], by simp [patternCheck, hp0, hok, ht]⟩
            | false =>
                exact ⟨[⟨path, "Value does not match pattern: " ++ p, some (.str sv)⟩],
                  by simp [patternCheck, hp0, hok, ht]⟩
      | null => exact ⟨[], rfl⟩
      | bool b => exact ⟨[], rfl⟩
      | num q => exact ⟨[], rfl⟩
      | arr xs => exact ⟨[], rfl⟩
      | obj fs => exact ⟨[], rfl⟩

theorem oneOfValidCount_ok (f : SchemaNode → Except String (List ValidationError))
    (subs : List SchemaNode) (h : ∀ sub ∈ subs, ∃ es, f sub = .ok es) :
    ∃ n, oneOfValidCount f subs = .ok n := by
  induction subs with
  | nil => exact ⟨0, rfl⟩
  | cons s rest ih =>
      obtain ⟨es, hes⟩ := h s (List.mem_cons_self _ _)
      obtain ⟨n, hn⟩ := ih (fun sub hm => h sub (List.mem_cons_of_mem _ hm))
      exact ⟨(if es.isEmpty then 1 else 0) + n,
        by simp [oneOfValidCount, hes, hn, exceptBind_ok, exceptPure_ok]⟩

theorem anyOfIsValid_ok (f : SchemaNode → Except String (List ValidationError))
    (subs : List SchemaNode) (h : ∀ sub ∈ subs, ∃ es, f sub = .ok es) :
    ∃ b, anyOfIsValid f subs = .ok b := by
  induction subs with
  | nil => exact ⟨false, rfl⟩
  | cons s rest ih =>
      obtain ⟨es, hes⟩ := h s (List.mem_cons_self _ _)
      obtain ⟨b, hb⟩ := ih (fun sub hm => h sub (List.mem_cons_of_mem _ hm))
      cases es with
      | nil => exact ⟨true, by simp [anyOfIsValid, hes, exceptBind_ok, exceptPure_ok]⟩
      | cons e es' => exact ⟨b, by simp [anyOfIsValid, hes, exceptBind_ok, hb]⟩

theorem validatePropsWith_ok
    (f : JsonValue → SchemaNode → String → Except String (List ValidationError))
    (value : JsonValue) (props : List (String × SchemaNode)) (path : String)
    (h : ∀ kv ∈ props, ∀ v' p', ∃ es, f v' kv.2 p' = .ok es) :
    ∃ es, validatePropsWith f value props path = .ok es := by
  induction props with
  | nil => exact ⟨[], rfl⟩
  | cons kv rest ih =>
      obtain ⟨k, psch⟩ := kv
      obtain ⟨es2, hes2⟩ := ih (fun kv hm => h kv (List.mem_cons_of_mem _ hm))
      cases hk : jsHasKey value k with
      | false =>
          exact ⟨es2,
            by simp [validatePropsWith, hk, hes2, exceptBind_ok, exceptPure_ok]⟩
      | true =>
          obtain ⟨es1, hes1⟩ :=
            h ⟨k, psch⟩ (List.mem_cons_self _ _) (jsGet value k) (extendPath path k)
          exact ⟨es1 ++ es2,
            by simp [validatePropsWith, hk, hes1, hes2, exceptBind_ok, exceptPure_ok]⟩

theorem validateItemsWith_ok
    (f : JsonValue → String → Except String (List ValidationError))
    (elems : List JsonValue) (idx : Nat) (path : String)
    (h : ∀ x p', ∃ es, f x p' = .ok es) :
    ∃ es, validateItemsWith f elems idx path = .ok es := by
  induction elems generalizing idx with
  | nil => exact ⟨[], rfl⟩
  | cons x rest ih =>
      obtain ⟨es1, hes1⟩ := h x (path ++ "[" ++ toString idx ++ "]")
      obtain ⟨es2, hes2⟩ := ih (idx + 1)
      exact ⟨es1 ++ es2,
        by simp [validateItemsWith, hes1, hes2, exceptBind_ok, exceptPure_ok]⟩

theorem objStructureCheck_ok
    (f : JsonValue → SchemaNode → String → Except String (List ValidationError))
    (ty : Option TypeDecl) (req : Option (List String))
    (props : Option (List (String × SchemaNode))) (value : JsonValue) (path : String)
    (h : ∀ ps, props = some ps → ∀ kv ∈ ps, ∀ v' p', ∃ es, f v' kv.2 p' = .ok es) :
    ∃ es, objStructureCheck f ty req props value path = .ok es := by
  simp only [objStructureCheck]
  split
  · cases props with
    | none =>
        exact ⟨requiredCheck req value path ++ [],
          by simp [exceptBind_ok, exceptPure_ok]⟩
    | some ps =>
        obtain ⟨pes, hpes⟩ := validatePropsWith_ok f value ps path (h ps rfl)
        exact ⟨requiredCheck req value path ++ pes,
          by simp [hpes, exceptBind_ok, exceptPure_ok]⟩
  · exact ⟨[], rfl⟩

theorem itemsStructureCheck_ok
    (f : JsonValue → SchemaNode → String → Except String (List ValidationError))
    (ty : Option TypeDecl) (items : Option SchemaNode) (value : JsonValue)
    (path : String)
    (h : ∀ isch, items = some isch → ∀ x p', ∃ es, f x isch p' = .ok es) :
    ∃ es, itemsStructureCheck f ty items value path = .ok es := by
  simp only [itemsStructureCheck]
  cases value
  case arr elems =>
      by_cases hty : ty = some (TypeDecl.one "array")
      · simp only [hty, if_true]
        cases items with
        | none => exact ⟨[], rfl⟩
        | some isch =>
            exact validateItemsWith_ok (fun x p => f x isch p) elems 0 path
              (fun x p' => h isch rfl x p')
      · simp only [hty, if_false]
        exact ⟨[], rfl⟩
  all_goals exact ⟨[], rfl⟩

theorem validateValue_no_throw_aux (t : String → String → Bool) :
    ∀ N (s : SchemaNode), schemaSize s ≤ N → patternsValid s = true →
      ∀ v path, ∃ es, validateValue t v s path = .ok es := by
  intro N
  induction N using Nat.strong_induction_on with
  | _ N ih =>
    intro s hN hpv v path
    cases s with
    | mk r o a ty e pa mi ma miL maL req props items d =>
      have hN' : schemaSize (SchemaNode.mk r o a ty e pa mi ma miL maL req props items d)
          ≤ N := hN
      simp only [patternsValid, Bool.and_eq_true] at hpv
      obtain ⟨⟨⟨⟨hpat, hone⟩, hany⟩, hpr⟩, hit⟩ := hpv
      rw [validateValue_unfold]
      simp only [validateBody]
      cases hr : refTruthy r with
      | true => exact ⟨[], by simp⟩
      | false =>
        simp only [Bool.false_eq_true, if_false]
        cases o with
        | some subs =>
            have hsub : ∀ sub ∈ subs, ∃ es, validateValue t v sub path = .ok es := by
              intro sub hm
              have hlt : schemaSize sub < schemaSize
                  (SchemaNode.mk r (some subs) a ty e pa mi ma miL maL req props
                    items d) := schemaSize_child_oneOf hm
              exact ih (schemaSize sub) (by omega) sub (le_refl _)
                (patternsValid_of_mem_pvSubs (by simpa [pvOptSubs] using hone) hm) v path
            obtain ⟨n, hn⟩ :=
              oneOfValidCount_ok (fun sub => validateValue t v sub path) subs hsub
            by_cases h1 : n = 1
            · exact ⟨[], by simp [hn, exceptBind_ok, h1, exceptPure_ok]⟩
            · exact ⟨[⟨path, "Value must match exactly one of the oneOf schemas", some v⟩],
                by simp [hn, exceptBind_ok, h1, exceptPure_ok]⟩
        | none =>
          cases a with
          | some subs =>
              have hsub : ∀ sub ∈ subs, ∃ es, validateValue t v sub path = .ok es := by
                intro sub hm
                have hlt : schemaSize sub < schemaSize
                    (SchemaNode.mk r none (some subs) ty e pa mi ma miL maL req props
                      items d) := schemaSize_child_anyOf hm
                exact ih (schemaSize sub) (by omega) sub (le_refl _)
                  (patternsValid_of_mem_pvSubs (by simpa [pvOptSubs] using hany) hm) v path
              obtain ⟨b, hb⟩ :=
                anyOfIsValid_ok (fun sub => validateValue t v sub path) subs hsub
              cases b with
              | true => exact ⟨[], by simp [hb, exceptBind_ok, exceptPure_ok]⟩
              | false =>
                  exact ⟨[⟨path, "Value must match at least one of the anyOf schemas",
                           some v⟩],
                    by simp [hb, exceptBind_ok, exceptPure_ok]⟩
          | none =>
              obtain ⟨pes, hpes⟩ := patternCheck_ok t pa v path hpat
              have hpropdesc : ∀ ps, props = some ps → ∀ kv ∈ ps, ∀ v' p',
                  ∃ es, validateValue t v' kv.2 p' = .ok es := by
                intro ps hps kv hm v' p'
                subst hps
                have hlt : schemaSize kv.2 < schemaSize
                    (SchemaNode.mk r none none ty e pa mi ma miL maL req (some ps)
                      items d) := schemaSize_child_props hm
                exact ih (schemaSize kv.2) (by omega) kv.2 (le_refl _)
                  (patternsValid_of_mem_pvProps (by simpa [pvOptProps] using hpr) hm) v' p'
              obtain ⟨oes, hoes⟩ :=
                objStructureCheck_ok (fun v' sub p' => validateValue t v' sub p') ty req
                  props v path hpropdesc
              have hitemdesc : ∀ isch, items = some isch → ∀ x p',
                  ∃ es, validateValue t x isch p' = .ok es := by
                intro isch hisch x p'
                subst hisch
                have hlt : schemaSize isch < schemaSize
                    (SchemaNode.mk r none none ty e pa mi ma miL maL req props
                      (some isch) d) := schemaSize_child_items
                exact ih (schemaSize isch) (by omega) isch (le_refl _)
                  (by simpa [pvOptItem] using hit) x p'
              obtain ⟨ies, hies⟩ :=
                itemsStructureCheck_ok (fun v' sub p' => validateValue t v' sub p') ty
                  items v path hitemdesc
              cases htt : typeTags ty with
              | none =>
                  exact ⟨enumCheck e v path ++ pes ++ numberCheck mi ma v path ++
                          lengthCheck miL maL v path ++ oes ++ ies,
                    by simp only [htt, hpes, hoes, hies, exceptBind_ok, exceptPure_ok]⟩
              | some types =>
                  cases hct : types.contains (getType v) with
                  | true =>
                      exact ⟨enumCheck e v path ++ pes ++ numberCheck mi ma v path ++
                              lengthCheck miL maL v path ++ oes ++ ies,
                        by simp only [htt, hct, eq_self_iff_true, if_true, hpes, hoes,
                             hies, exceptBind_ok, exceptPure_ok]⟩
                  | false =>
                      exact ⟨[⟨path, "Expected type " ++ String.intercalate " | " types ++
                               ", got " ++ getType v, some v⟩],
                        by simp only [htt, hct, Bool.false_eq_true, if_false]⟩

/-- C4 (amended): the recursive validator is total as long as every
`pattern` occurring in the schema tree is absent, empty, or a valid
regular expression, validity being established by the conservative check
`patternsValid` (whatever it accepts is genuinely valid ECMA-262 syntax,
so the hypothesis implies `new RegExp` cannot throw on any pattern of
the tree): it then returns normally for every candidate value, with
every outcome represented solely as the returned violation list.  As
stated the claim fails for an arbitrary pattern string:
`new RegExp(schema.pattern)` (line 494 of `src/json-maker.ts`) throws
`SyntaxError` on a malformed pattern such as `"["` — see the
counterexample. -/
theorem validateValue_total_on_valid_patterns (t : String → String → Bool)
    (s : SchemaNode) (v : JsonValue) (path : String)
    (h : patternsValid s = true) :
    ∃ es, validateValue t v s path = .ok es :=
  validateValue_no_throw_aux t (schemaSize s) s (le_refl _) h v path

/-- Counterexample to C4 as stated: the node `{pattern: "["}` with the
string candidate `"a"` makes the validator throw (the `RegExp`
constructor rejects the unterminated character class), instead of
returning normally. -/
def c4BadPatternSchema : SchemaNode :=
  .mk none none none none none (some "[") none none none none none none none none

theorem validateValue_throws_on_invalid_pattern :
    validateValue (fun _ _ => true) (.str "a") c4BadPatternSchema "" =
      .error "Invalid regular expression: /[/" := by rfl

def c4GoodPatternSchema : SchemaNode :=
  .mk none none none (some (.one "string")) none (some "^#[0-9a-fA-F]{6}$") none none
     none none none none none none

theorem validateValue_total_on_valid_patterns_witness :
    patternsValid c4GoodPatternSchema = true ∧
    ∃ es, validateValue (fun _ _ => true) (.str "#a1B2c3") c4GoodPatternSchema "" =
      .ok es :=
  ⟨rfl, validateValue_total_on_valid_patterns (fun _ _ => true) c4GoodPatternSchema
      (.str "#a1B2c3") "" rfl⟩
